import Mathlib

/-!
Shallow embedding of the jsondbfs-mongo collection engine
(src/lib/collection.js) and of the in-memory flush scheduler
(src/unnamed/part_000), together with theorems checking the repository's
natural-language specification against the code.

JavaScript values are modelled by `Value`; a document is an ordered
association list of field names to values, mirroring a JS object.  The
storage backend (the dataHandler module, which is not under src/) is
modelled from the spec as a lockable store with injectable faults.  Each
collection operation becomes a function from a backend state to a settled
promise result plus the new backend state, following the source's control
flow statement by statement -- including the places where the source calls
`reject` without returning and then keeps executing.  A JS promise keeps
only its first settlement; `settleR` models that.
-/

/-- A JavaScript value as the collection engine observes it.
`objIncVal v` models an object value containing the key `$inc` with payload
`v`; `objOther ks` models an object value without an `$inc` key, identified
by its key list `ks` (the source only ever inspects `instanceof Object`,
membership of `$inc`, and `Object.keys` for an error message). -/
inductive Value where
  | str : String → Value
  | num : Int → Value
  | bool : Bool → Value
  | null : Value
  | objIncVal : Value → Value
  | objOther : String → Value
  deriving DecidableEq, Repr

/-- A document: an ordered mapping from field names to values. -/
abbrev Doc := List (String × Value)

/-- A criteria object: a mapping of field constraints. -/
abbrev Criteria := List (String × Value)

/-- An update specification: a mapping from field names to values, where an
object value is an operator object (see `Value`). -/
abbrev UpdateSpec := List (String × Value)

/-- JS property read `d[k]`: the value bound to `k`, or `undefined`. -/
def getField : Doc → String → Option Value
  | [], _ => none
  | (k', v) :: rest, k => if k' = k then some v else getField rest k

/-- JS property assignment `d[k] = v`: replaces the binding in place if `k`
is already a key (JS objects keep the original key position), otherwise
appends the new binding. -/
def setField : Doc → String → Value → Doc
  | [], k, v => [(k, v)]
  | (k', v') :: rest, k, v =>
      if k' = k then (k, v) :: rest else (k', v') :: setField rest k v

/-- JS truthiness of a value (`_.compact` keeps exactly the truthy ones). -/
def truthy : Value → Bool
  | .str s => s ≠ ""
  | .num n => n ≠ 0
  | .bool b => b
  | .null => false
  | .objIncVal _ => true
  | .objOther _ => true

/-- Truthiness of a possibly-`undefined` value. -/
def truthyOpt : Option Value → Bool
  | none => false
  | some v => truthy v

/-- The rejection values the collection engine produces.  Each constructor
stands for one reject site in the source:
`noCriteria` = the string starting with No criteria,
`noUpdateCriteria` = the string starting with No update criteria,
`noData` = the string starting with No data passed,
`badBatch` = the insertMany message asking for a non-empty array,
`badField` = the distinct message asking for a non-empty string,
`typeMismatch k` = the main-loop message about incrementing a non-numeric
value at property `k` (collection.js line 269),
`unsupportedOperator ks` = the unsupported-operator message naming the
operator keys `ks` (line 275),
`typeMismatchAll` = the differently-worded increment message of the
empty-criteria fallback branch (line 310),
`ioErr` = an error produced by the storage backend itself. -/
inductive JsErr where
  | noCriteria
  | noUpdateCriteria
  | noData
  | badBatch
  | badField
  | typeMismatch : String → JsErr
  | unsupportedOperator : String → JsErr
  | typeMismatchAll
  | ioErr : String → JsErr
  deriving DecidableEq, Repr

/-- Observable storage-backend events, recorded in order. -/
inductive Ev where
  | lockAcq
  | lockFail
  | readOk
  | readFail
  | writeOk
  | writeFail
  | unlockRel
  deriving DecidableEq, Repr

/-- Modelled from the spec: the Storage Backend (dataHandler, not under
src/) holds the persisted document sequence, an exclusive-section flag,
and a trace of the events it has served (spec section 4.1). -/
structure Backend where
  docs : List Doc
  lockHeld : Bool
  events : List Ev
  deriving DecidableEq, Repr

/-- Fault injection for the Storage Backend: when a field is `some e` the
corresponding backend call reports error `e`. -/
structure Faults where
  lockErr : Option JsErr := none
  getErr : Option JsErr := none
  setErr : Option JsErr := none

/-- The fault-free backend behaviour (every call succeeds). -/
def noFaults : Faults := {}

/-- Modelled from the spec: acquiring the exclusive section.  On failure
the section is not acquired (spec section 4.1). -/
def Backend.lockOp (fl : Faults) (b : Backend) : Option JsErr × Backend :=
  match fl.lockErr with
  | some e => (some e, { b with events := b.events ++ [Ev.lockFail] })
  | none => (none, { b with lockHeld := true, events := b.events ++ [Ev.lockAcq] })

/-- Modelled from the spec: reading the complete current document
sequence. -/
def Backend.getOp (fl : Faults) (b : Backend) : Except JsErr (List Doc) × Backend :=
  match fl.getErr with
  | some e => (.error e, { b with events := b.events ++ [Ev.readFail] })
  | none => (.ok b.docs, { b with events := b.events ++ [Ev.readOk] })

/-- Modelled from the spec: atomically replacing the persisted sequence;
on failure nothing is written. -/
def Backend.setOp (fl : Faults) (b : Backend) (ds : List Doc) : Option JsErr × Backend :=
  match fl.setErr with
  | some e => (some e, { b with events := b.events ++ [Ev.writeFail] })
  | none => (none, { b with docs := ds, events := b.events ++ [Ev.writeOk] })

/-- Modelled from the spec: releasing the exclusive section never fails
(spec section 4.1). -/
def Backend.unlockOp (b : Backend) : Backend :=
  { b with lockHeld := false, events := b.events ++ [Ev.unlockRel] }

/-- A JS promise keeps its first settlement: a later `resolve` or `reject`
on an already settled promise is a no-op. -/
def settleR {α : Type} (s : Option (Except JsErr α)) (r : Except JsErr α) :
    Option (Except JsErr α) :=
  match s with
  | some x => some x
  | none => some r

/-- Modelled from the spec: the external Criteria Matcher
(json-criteria-ext, not under src/), as a conjunction of field-equality
constraints -- a pure predicate (spec section 6). -/
def matchCriteria (d : Doc) (c : Criteria) : Bool :=
  c.all fun kv => getField d kv.1 == some kv.2

/-- Matching against a possibly-absent criteria argument.  Modelled from
the spec: absent criteria is defined to match every document (spec
section 3); the external matcher's behaviour on a JS `undefined` criteria
is not under src/. -/
def matchesOpt (d : Doc) : Option Criteria → Bool
  | some c => matchCriteria d c
  | none => true

/-- Modelled from the spec: the external ID Generator (util.generateUUID,
not under src/) is collision-free; it is modelled as a counter producing a
fresh value on every call. -/
def freshId (g : Nat) : Value :=
  Value.num (Int.ofNat g)

/-- One matched document of the main update loop (collection.js lines
261-282): fields of the update criteria are applied in order; a plain
value is assigned; an object with `$inc` increments when both the current
field value and the operator payload are numbers and otherwise rejects
with the type-mismatch message and returns; any other object value rejects
with the unsupported-operator message and returns. -/
def applyUpdate : Doc → UpdateSpec → Except JsErr Doc
  | d, [] => .ok d
  | d, (k, Value.objIncVal v) :: rest =>
      match getField d k, v with
      | some (Value.num n), Value.num m =>
          applyUpdate (setField d k (Value.num (n + m))) rest
      | _, _ => .error (JsErr.typeMismatch k)
  | _, (_, Value.objOther ks) :: _ => .error (JsErr.unsupportedOperator ks)
  | d, (k, v) :: rest => applyUpdate (setField d k v) rest

/-- The main update loop (collection.js lines 257-290): scans the document
sequence in order; each document matching the criteria is updated via
`applyUpdate` and collected; the first rejection aborts the loop; with
`multi` false the loop breaks after the first match.  Returns the updated
sequence, the shared matched/modified count, and the matched documents. -/
def updateLoop (c : Option Criteria) (spec : UpdateSpec) (multi : Bool) :
    List Doc → Except JsErr (List Doc × Nat × List Doc)
  | [] => .ok ([], 0, [])
  | d :: ds =>
      if matchesOpt d c then
        match applyUpdate d spec with
        | .error e => .error e
        | .ok d' =>
            if multi then
              match updateLoop c spec multi ds with
              | .error e => .error e
              | .ok (ds', n, ms) => .ok (d' :: ds', n + 1, d' :: ms)
            else .ok (d' :: ds, 1, [d'])
      else
        match updateLoop c spec multi ds with
        | .error e => .error e
        | .ok (ds', n, ms) => .ok (d :: ds', n, ms)

/-- One document of the empty-criteria fallback branch (collection.js
lines 303-318).  Unlike the main loop, the branch only special-cases an
object value containing `$inc`; an object without `$inc` is assigned as a
plain value.  On an `$inc` type mismatch the callback rejects and returns
early, leaving `undefined` in the mapped array; `none` models that. -/
def updateAllDoc (spec : UpdateSpec) (d : Doc) : Option Doc :=
  match spec with
  | [] => some d
  | (k, Value.objIncVal v) :: rest =>
      match getField d k, v with
      | some (Value.num n), Value.num m =>
          updateAllDoc rest (setField d k (Value.num (n + m)))
      | _, _ => none
  | (k, v) :: rest => updateAllDoc rest (setField d k v)

/-- Whether the fallback branch rejects (its single generic increment
message) for some document of the sequence. -/
def updateAllErr (spec : UpdateSpec) (docs : List Doc) : Option JsErr :=
  if docs.any fun d => (updateAllDoc spec d).isNone then some JsErr.typeMismatchAll
  else none

/-- Shared matched/modified and upserted counters of update
(collection.js lines 242-246). -/
structure UpdateRet where
  nMatched : Nat
  nModified : Nat
  nUpserted : Nat
  deriving DecidableEq, Repr

/-- What update resolves with: the counter object, the matched or mapped
documents (`options.retObj`), or the update criteria object itself (the
no-match paths). -/
inductive UpdateOut where
  | counts : UpdateRet → UpdateOut
  | docsOut : List Doc → UpdateOut
  | specOut : Doc → UpdateOut
  deriving DecidableEq, Repr

/-- Options accepted by update (collection.js lines 221-227 give the
defaults used when no options object is passed at all). -/
structure UpdateOptions where
  multi : Bool := true
  upsert : Bool := false
  retObj : Bool := false
  deriving DecidableEq, Repr

/-- Options accepted by remove. -/
structure RemoveOptions where
  multi : Bool := true
  deriving DecidableEq, Repr

/-- The outcome of one collection operation: the promise's settlement (its
first resolve or reject, `none` while unsettled), the backend state left
behind, and the ID-generator counter. -/
structure OpResult (α : Type) where
  settled : Option (Except JsErr α)
  backend : Backend
  gen : Nat

namespace Collection

/-- insert (collection.js lines 167-203).  With no data the promise
rejects; the following `data._id = util.generateUUID()` first calls the
generator and then throws on the assignment to `undefined`, aborting the
executor, so no lock and no further work happens.  With a single document
a fresh id is assigned, the lock is acquired (a lock failure rejects but,
lacking a return, execution continues), the sequence is read, the document
appended, written back, and the lock released.  With an array the fresh id
is assigned to the array object itself and `_.flatten` then discards that
wrapper together with the id, so the elements are appended without any
`_id`. -/
def insert (fl : Faults) (gen : Nat) (b : Backend) (data : Option (Doc ⊕ List Doc)) :
    OpResult (Doc ⊕ List Doc) :=
  match data with
  | none => ⟨some (.error JsErr.noData), b, gen + 1⟩
  | some (Sum.inl d) =>
      let d' := setField d "_id" (freshId gen)
      let lk := b.lockOp fl
      let s1 : Option (Except JsErr (Doc ⊕ List Doc)) :=
        match lk.1 with
        | some e => some (.error e)
        | none => none
      match lk.2.getOp fl with
      | (.error e, b2) => ⟨settleR s1 (.error e), b2.unlockOp, gen + 1⟩
      | (.ok docs, b2) =>
          match b2.setOp fl (docs ++ [d']) with
          | (some e, b3) => ⟨settleR s1 (.error e), b3.unlockOp, gen + 1⟩
          | (none, b3) => ⟨settleR s1 (.ok (Sum.inl d')), b3.unlockOp, gen + 1⟩
  | some (Sum.inr arr) =>
      let lk := b.lockOp fl
      let s1 : Option (Except JsErr (Doc ⊕ List Doc)) :=
        match lk.1 with
        | some e => some (.error e)
        | none => none
      match lk.2.getOp fl with
      | (.error e, b2) => ⟨settleR s1 (.error e), b2.unlockOp, gen + 1⟩
      | (.ok docs, b2) =>
          match b2.setOp fl (docs ++ arr) with
          | (some e, b3) => ⟨settleR s1 (.error e), b3.unlockOp, gen + 1⟩
          | (none, b3) => ⟨settleR s1 (.ok (Sum.inr arr)), b3.unlockOp, gen + 1⟩

/-- The forEach of insertMany (collection.js lines 452-455): each element
receives its own fresh id, in order. -/
def assignIds : Nat → List Doc → List Doc
  | _, [] => []
  | g, d :: ds => setField d "_id" (freshId g) :: assignIds (g + 1) ds

/-- insertMany (collection.js lines 437-466).  A non-array (`none`) or
empty argument rejects; lacking a return, execution continues: the lock is
acquired and the sequence read.  A read failure releases the lock and
rejects, after which the forEach throws on the undefined documents array
(consuming one generated id when the argument list is non-empty), aborting
the callback.  With a non-array argument the forEach itself throws after
the read, aborting the callback with the lock still held.  Otherwise every
element gets a fresh id, all are appended in one lock cycle, and the
result is written back. -/
def insertMany (fl : Faults) (gen : Nat) (b : Backend) (dataArr : Option (List Doc)) :
    OpResult (List Doc) :=
  let s0 : Option (Except JsErr (List Doc)) :=
    match dataArr with
    | none => some (.error JsErr.badBatch)
    | some [] => some (.error JsErr.badBatch)
    | some (_ :: _) => none
  let lk := b.lockOp fl
  let s1 :=
    match lk.1 with
    | some e => settleR s0 (.error e)
    | none => s0
  match lk.2.getOp fl with
  | (.error e, b2) =>
      match dataArr with
      | some (_ :: _) => ⟨settleR s1 (.error e), b2.unlockOp, gen + 1⟩
      | _ => ⟨settleR s1 (.error e), b2.unlockOp, gen⟩
  | (.ok docs, b2) =>
      match dataArr with
      | none => ⟨s1, b2, gen⟩
      | some arr =>
          let arr' := assignIds gen arr
          match b2.setOp fl (docs ++ arr') with
          | (some e, b3) => ⟨settleR s1 (.error e), b3.unlockOp, gen + arr.length⟩
          | (none, b3) => ⟨settleR s1 (.ok arr'), b3.unlockOp, gen + arr.length⟩

/-- update (collection.js lines 215-346), followed branch by branch.
Missing criteria or update criteria reject but, lacking a return,
execution continues (iterating the fields of an undefined update criteria
iterates zero times, hence `Option.getD []`).  The lock is acquired (a
failure rejects and execution continues), the sequence read (a failure
releases the lock and rejects), and the main loop runs.  A loop rejection
returns without releasing the lock (lines 269-276 have no unlock).  With
at least one match the new sequence is written and the lock released.
With no match and an absent or empty criteria the fallback branch maps
every document through `updateAllDoc` (rejections leave undefined holes,
dropped here from the written sequence; with the matcher of this model the
branch is only ever reached with an empty sequence) and writes the result.
Otherwise the lock is released and, under `options.upsert`, insert is
called on the update criteria object itself (which thereby gains an
`_id`). -/
def update (fl : Faults) (gen : Nat) (b : Backend) (criteria : Option Criteria)
    (updateCriteria : Option UpdateSpec) (opts : UpdateOptions) : OpResult UpdateOut :=
  let s0 : Option (Except JsErr UpdateOut) :=
    if criteria.isNone then some (.error JsErr.noCriteria) else none
  let s1 :=
    if updateCriteria.isNone then settleR s0 (.error JsErr.noUpdateCriteria) else s0
  let spec := updateCriteria.getD []
  let lk := b.lockOp fl
  let s2 :=
    match lk.1 with
    | some e => settleR s1 (.error e)
    | none => s1
  match lk.2.getOp fl with
  | (.error e, b2) => ⟨settleR s2 (.error e), b2.unlockOp, gen⟩
  | (.ok docs, b2) =>
      match updateLoop criteria spec opts.multi docs with
      | .error e => ⟨settleR s2 (.error e), b2, gen⟩
      | .ok (docs', n, matched) =>
          match matched with
          | _ :: _ =>
              match b2.setOp fl docs' with
              | (some e, b3) => ⟨settleR s2 (.error e), b3.unlockOp, gen⟩
              | (none, b3) =>
                  ⟨settleR s2 (.ok (if opts.retObj then UpdateOut.docsOut matched
                      else UpdateOut.counts ⟨n, n, 0⟩)), b3.unlockOp, gen⟩
          | [] =>
              if criteria = none ∨ criteria = some [] then
                let s3 :=
                  match updateAllErr spec docs with
                  | some e => settleR s2 (.error e)
                  | none => s2
                let mapped := docs.filterMap (updateAllDoc spec)
                match b2.setOp fl mapped with
                | (some e, b3) => ⟨settleR s3 (.error e), b3.unlockOp, gen⟩
                | (none, b3) =>
                    ⟨settleR s3 (.ok (if opts.retObj then UpdateOut.docsOut mapped
                        else UpdateOut.counts ⟨docs.length, docs.length, 0⟩)),
                      b3.unlockOp, gen⟩
              else
                let b3 := b2.unlockOp
                if opts.upsert then
                  let r := insert fl gen b3 (some (Sum.inl spec))
                  match r.settled with
                  | some (.ok _) =>
                      ⟨settleR s2 (.ok (if opts.retObj
                          then UpdateOut.specOut (setField spec "_id" (freshId gen))
                          else UpdateOut.counts ⟨n, n, 1⟩)), r.backend, r.gen⟩
                  | some (.error e) => ⟨settleR s2 (.error e), r.backend, r.gen⟩
                  | none => ⟨s2, r.backend, r.gen⟩
                else
                  ⟨settleR s2 (.ok (if opts.retObj then UpdateOut.specOut spec
                      else UpdateOut.counts ⟨n, n, 0⟩)), b3, gen⟩

/-- remove (collection.js lines 357-400).  An empty criteria object is
first normalized to undefined (line 364); an absent criteria rejects but,
lacking a return, execution continues.  The lock is acquired, the sequence
read; with an absent criteria every document is removed, otherwise every
document matching the criteria is removed -- `options.multi` is never
consulted (lines 380-387).  The filtered sequence is written and the lock
released. -/
def remove (fl : Faults) (gen : Nat) (b : Backend) (criteria : Option Criteria)
    (_opts : RemoveOptions) : OpResult Bool :=
  let c : Option Criteria :=
    match criteria with
    | some [] => none
    | x => x
  let s0 : Option (Except JsErr Bool) :=
    if c.isNone then some (.error JsErr.noCriteria) else none
  let lk := b.lockOp fl
  let s1 :=
    match lk.1 with
    | some e => settleR s0 (.error e)
    | none => s0
  match lk.2.getOp fl with
  | (.error e, b2) => ⟨settleR s1 (.error e), b2.unlockOp, gen⟩
  | (.ok docs, b2) =>
      let filtered :=
        match c with
        | none => ([] : List Doc)
        | some cr => docs.filter fun d => ! matchCriteria d cr
      match b2.setOp fl filtered with
      | (some e, b3) => ⟨settleR s1 (.error e), b3.unlockOp, gen⟩
      | (none, b3) => ⟨settleR s1 (.ok true), b3.unlockOp, gen⟩

/-- deleteOne (collection.js lines 574-580): remove with multi false. -/
def deleteOne (fl : Faults) (gen : Nat) (b : Backend) (criteria : Option Criteria) :
    OpResult Bool :=
  remove fl gen b criteria ⟨false⟩

/-- deleteMany (collection.js lines 587-593): remove with multi true. -/
def deleteMany (fl : Faults) (gen : Nat) (b : Backend) (criteria : Option Criteria) :
    OpResult Bool :=
  remove fl gen b criteria ⟨true⟩

/-- Underscore's uniq: keeps the first occurrence of each value. -/
def uniqAux (seen : List (Option Value)) : List (Option Value) → List (Option Value)
  | [] => []
  | x :: xs => if x ∈ seen then uniqAux seen xs else x :: uniqAux (x :: seen) xs

/-- distinct (collection.js lines 473-493).  An empty field name rejects
but, lacking a return, execution continues; the read is made without the
lock (read-only path); the field values are collected, deduplicated by
first occurrence, and `_.compact` then removes every falsy value
(undefined, null, 0, false and the empty string alike); the later resolve
is a no-op on an already settled promise. -/
def distinct (fl : Faults) (b : Backend) (field : String) :
    Option (Except JsErr (List Value)) × Backend :=
  let s0 : Option (Except JsErr (List Value)) :=
    if field = "" then some (.error JsErr.badField) else none
  match b.getOp fl with
  | (.error e, b1) => (settleR s0 (.error e), b1)
  | (.ok docs, b1) =>
      let vals := docs.map fun d => getField d field
      let distinctValues := ((uniqAux [] vals).filter truthyOpt).filterMap fun x => x
      (settleR s0 (.ok distinctValues), b1)

/-- updateOne (collection.js lines 501-522): update with multi forced to
false.  The optional re-read under `options.new` is read-only and does not
touch the stored sequence; it is elided here. -/
def updateOne (fl : Faults) (gen : Nat) (b : Backend) (criteria : Option Criteria)
    (updateCriteria : Option UpdateSpec) (opts : UpdateOptions) : OpResult UpdateOut :=
  update fl gen b criteria updateCriteria { opts with multi := false }

/-- updateMany (collection.js lines 538-559): update with multi forced to
true; the optional `options.new` re-read is read-only and elided. -/
def updateMany (fl : Faults) (gen : Nat) (b : Backend) (criteria : Option Criteria)
    (updateCriteria : Option UpdateSpec) (opts : UpdateOptions) : OpResult UpdateOut :=
  update fl gen b criteria updateCriteria { opts with multi := true }

/-- findAndModify (collection.js lines 133-161): normalizes an empty
criteria to undefined, rejects on missing arguments (and, lacking a
return, still delegates to update, whose own validation re-rejects); on
success it resolves with the update criteria object under
`options.retObj`, else with the raw result. -/
def findAndModify (fl : Faults) (gen : Nat) (b : Backend) (criteria : Option Criteria)
    (updateCriteria : Option UpdateSpec) (opts : UpdateOptions) : OpResult UpdateOut :=
  let c : Option Criteria :=
    match criteria with
    | some [] => none
    | x => x
  let s0 : Option (Except JsErr UpdateOut) :=
    if c.isNone then some (.error JsErr.noCriteria) else none
  let s1 :=
    if updateCriteria.isNone then settleR s0 (.error JsErr.noUpdateCriteria) else s0
  let r := update fl gen b c updateCriteria opts
  ⟨(match r.settled with
    | some (.ok v) =>
        settleR s1 (.ok (if opts.retObj then UpdateOut.specOut (updateCriteria.getD [])
          else v))
    | some (.error e) => settleR s1 (.error e)
    | none => s1), r.backend, r.gen⟩

end Collection

/-- The documents seen by a sequence of single-document inserts and
insertMany calls. -/
inductive InsOp where
  | one : Doc → InsOp
  | many : List Doc → InsOp

/-- Run one insert-family operation against the fault-free backend,
threading the ID-generator counter. -/
def runInsOp (st : Nat × Backend) (op : InsOp) : Nat × Backend :=
  match op with
  | InsOp.one d =>
      let r := Collection.insert noFaults st.1 st.2 (some (Sum.inl d))
      (r.gen, r.backend)
  | InsOp.many ds =>
      let r := Collection.insertMany noFaults st.1 st.2 (some ds)
      (r.gen, r.backend)

/-- Run a sequence of insert-family operations. -/
def runInsOps (st : Nat × Backend) (ops : List InsOp) : Nat × Backend :=
  ops.foldl runInsOp st

/-- The update family: update itself and the wrappers that delegate to it. -/
inductive UpdFam where
  | upd : UpdateOptions → UpdFam
  | updOne : UpdateOptions → UpdFam
  | updMany : UpdateOptions → UpdFam
  | findMod : UpdateOptions → UpdFam

/-- Run one update-family operation against the fault-free backend. -/
def runUpdFam (gen : Nat) (b : Backend) (criteria : Option Criteria)
    (spec : UpdateSpec) : UpdFam → OpResult UpdateOut
  | UpdFam.upd o => Collection.update noFaults gen b criteria (some spec) o
  | UpdFam.updOne o => Collection.updateOne noFaults gen b criteria (some spec) o
  | UpdFam.updMany o => Collection.updateMany noFaults gen b criteria (some spec) o
  | UpdFam.findMod o => Collection.findAndModify noFaults gen b criteria (some spec) o

/-- The state of the Memory variant's buffered flush scheduler
(src/unnamed/part_000).  `memoryTable` models the in-process Set to which
whole content arrays are added; `fileContent` is what the backing file
holds; `halted` records that an uncaught exception escaped a timer
callback, which under default runtime semantics is fatal. -/
structure MemSched where
  memoryTable : List (List Doc)
  fileContent : Option (List (List Doc))
  halted : Bool
  deriving DecidableEq, Repr

/-- Startup of the Memory component (src/unnamed/part_000 lines 43-48):
one initial load from the backing file; a read failure is thrown, so the
component does not initialize (`none`); on success the content is added
to the in-memory table and the flush timer becomes active. -/
def memoryInit (readResult : Except JsErr (List Doc)) : Option MemSched :=
  match readResult with
  | .error _ => none
  | .ok content => some ⟨[content], some [content], false⟩

/-- Memory.set (src/unnamed/part_000 lines 71-74): adds the whole content
array as one more element of the in-memory Set. -/
def memSet (content : List Doc) (s : MemSched) : MemSched :=
  { s with memoryTable := s.memoryTable ++ [content] }

/-- Fault injection for one flush tick. -/
structure TickFaults where
  lockErr : Option JsErr := none
  writeErr : Option JsErr := none

/-- One flush tick (src/unnamed/part_000 lines 49-61): acquire the file
lock -- a failure is thrown, an uncaught exception in the timer callback,
so the scheduler halts; write the in-memory table to the file -- the lock
is released first, then a write failure is likewise thrown and the
scheduler halts; on success the file now holds the table.  A halted
scheduler runs no further ticks. -/
def memTick (f : TickFaults) (s : MemSched) : MemSched :=
  if s.halted then s
  else
    match f.lockErr with
    | some _ => { s with halted := true }
    | none =>
        match f.writeErr with
        | some _ => { s with halted := true }
        | none => { s with fileContent := some s.memoryTable }

/-- Run the flush scheduler over a sequence of tick fault injections. -/
def memRun (s : MemSched) (fs : List TickFaults) : MemSched :=
  fs.foldl (fun st f => memTick f st) s

/-- C1: the claim says every mutating operation releases the exclusive
section on every exit path.  The code violates it: when the main update
loop rejects on an operator object (an unsupported operator here, equally
an `$inc` type mismatch), collection.js lines 269-276 return without
calling unlock, so after the operation settles the lock is still held. -/
theorem update_operator_error_leaves_lock_held :
    (Collection.update noFaults 0 ⟨[[("a", Value.num 1)]], false, []⟩
        (some [("a", Value.num 1)]) (some [("b", Value.objOther "$push")]) {}).settled
      = some (Except.error (JsErr.unsupportedOperator "$push")) ∧
    (Collection.update noFaults 0 ⟨[[("a", Value.num 1)]], false, []⟩
        (some [("a", Value.num 1)]) (some [("b", Value.objOther "$push")]) {}).backend.lockHeld
      = true := by
  exact ⟨rfl, rfl⟩

/-- C2: the claim says a call of update with an absent criteria or update
specification rejects with the invalid-argument error, attempts no I/O,
never acquires the lock, and leaves the stored collection unchanged.  The
rejection does come first, but the reject has no return: with the update
specification absent the code still acquires the lock, reads and writes
the backing store; with the criteria absent it moreover applies the
specification to every document, changing the stored collection. -/
theorem update_missing_argument_still_locks_and_writes :
    ((Collection.update noFaults 0 ⟨[[("n", Value.str "x")]], false, []⟩
        (some [("n", Value.str "x")]) none {}).settled
      = some (Except.error JsErr.noUpdateCriteria) ∧
    (Collection.update noFaults 0 ⟨[[("n", Value.str "x")]], false, []⟩
        (some [("n", Value.str "x")]) none {}).backend.events
      = [Ev.lockAcq, Ev.readOk, Ev.writeOk, Ev.unlockRel]) ∧
    ((Collection.update noFaults 0 ⟨[[("a", Value.num 1)]], false, []⟩
        none (some [("k", Value.str "v")]) {}).settled
      = some (Except.error JsErr.noCriteria) ∧
    (Collection.update noFaults 0 ⟨[[("a", Value.num 1)]], false, []⟩
        none (some [("k", Value.str "v")]) {}).backend.docs
      = [[("a", Value.num 1), ("k", Value.str "v")]]) := by
  exact ⟨⟨rfl, rfl⟩, ⟨rfl, rfl⟩⟩

/-- C7: the claim says remove with multi false (hence deleteOne) deletes
at most the first matching document.  The code never consults
options.multi in remove: with two documents matching the criteria,
deleteOne deletes both. -/
theorem deleteOne_removes_every_match :
    (Collection.deleteOne noFaults 0
        ⟨[[("a", Value.num 1)], [("a", Value.num 1), ("b", Value.num 2)]], false, []⟩
        (some [("a", Value.num 1)])).settled = some (Except.ok true) ∧
    (Collection.deleteOne noFaults 0
        ⟨[[("a", Value.num 1)], [("a", Value.num 1), ("b", Value.num 2)]], false, []⟩
        (some [("a", Value.num 1)])).backend.docs = [] := by
  exact ⟨rfl, rfl⟩

/-- C4 counterexample: the claim includes the case of insert being given
an array of documents.  There the generated id is assigned to the array
object itself and then discarded by the flatten, so the insert succeeds
but the stored document carries no `_id` at all. -/
theorem insert_array_element_lacks_id :
    (Collection.insert noFaults 0 ⟨[], false, []⟩
        (some (Sum.inr [[("a", Value.num 1)]]))).settled
      = some (Except.ok (Sum.inr [[("a", Value.num 1)]])) ∧
    (Collection.insert noFaults 0 ⟨[], false, []⟩
        (some (Sum.inr [[("a", Value.num 1)]]))).backend.docs
      = [[("a", Value.num 1)]] ∧
    getField [("a", Value.num 1)] "_id" = none := by
  exact ⟨rfl, rfl, rfl⟩

/-- C8 counterexample: the claim says every non-null value, including
falsy values such as 0, appears in the distinct result.  The pipeline
ends in compact, which removes all falsy values: with stored field values
0 and the string a, only the string survives. -/
theorem distinct_drops_falsy_value :
    (Collection.distinct noFaults
        ⟨[[("tag", Value.num 0)], [("tag", Value.str "a")]], false, []⟩ "tag").1
      = some (Except.ok [Value.str "a"]) ∧
    ¬ Value.num 0 ∈ [Value.str "a"] := by
  exact ⟨rfl, by decide⟩

/-- C9 counterexample: the claim says the `_id` assigned at insert time is
never reassigned by an update, for every update specification.  An update
specification that itself contains an `_id` field overwrites the stored
identifier like any other field. -/
theorem update_spec_can_reassign_id :
    (Collection.update noFaults 5
        ⟨[[("_id", Value.num 0), ("name", Value.str "x")]], false, []⟩
        (some [("name", Value.str "x")]) (some [("_id", Value.str "hacked")]) {}).backend.docs
      = [[("_id", Value.str "hacked"), ("name", Value.str "x")]] ∧
    getField [("_id", Value.str "hacked"), ("name", Value.str "x")] "_id"
      ≠ getField [("_id", Value.num 0), ("name", Value.str "x")] "_id" := by
  exact ⟨rfl, by decide⟩

/-- C10 counterexample: the claim says a write failure on a flush tick is
reported but does not stop the scheduler, the next tick retrying with the
then-current in-memory state.  In the code the tick callback throws the
error exactly as the fatal startup path does: after a failing first tick
the scheduler is halted, the following tick does not run, and the backing
file still holds the old content instead of the current table. -/
theorem mem_tick_failure_stops_scheduler :
    memRun ⟨[[], [[("a", Value.num 1)]]], some [[]], false⟩
        [{ writeErr := some (JsErr.ioErr "disk full") }, {}]
      = ⟨[[], [[("a", Value.num 1)]]], some [[]], true⟩ ∧
    some [[], [[("a", Value.num 1)]]] ≠ (some [[]] : Option (List (List Doc))) := by
  exact ⟨rfl, by decide⟩

/-- The documents the main update loop actually matches: all documents
matching the criteria when multi is set, else only the first (the loop
breaks after the first match, collection.js lines 286-288). -/
def processedMatches (c : Criteria) (multi : Bool) (docs : List Doc) : List Doc :=
  if multi then docs.filter fun d => matchCriteria d c
  else (docs.filter fun d => matchCriteria d c).take 1

/-- Whether an Except value is an error. -/
def isErrE {α : Type} : Except JsErr α → Bool
  | .error _ => true
  | .ok _ => false

theorem getField_setField_self (d : Doc) (k : String) (v : Value) :
    getField (setField d k v) k = some v := by
  induction d with
  | nil => simp [setField, getField]
  | cons kv rest ih =>
      obtain ⟨k0, v0⟩ := kv
      by_cases hk : k0 = k
      · subst hk
        simp [setField, getField]
      · simp [setField, getField, hk, ih]

theorem getField_setField_ne (d : Doc) (k k' : String) (v : Value) (h : k ≠ k') :
    getField (setField d k v) k' = getField d k' := by
  induction d with
  | nil => simp [setField, getField, h]
  | cons kv rest ih =>
      obtain ⟨k0, v0⟩ := kv
      by_cases hk : k0 = k
      · subst hk
        have hk' : ¬ k0 = k' := h
        simp [setField, getField, hk']
      · by_cases hk' : k0 = k'
        · simp [setField, getField, hk, hk', Ne.symm h]
        · simp [setField, getField, hk, hk', ih]

theorem applyUpdate_id (spec : UpdateSpec) (hspec : ∀ kv ∈ spec, kv.1 ≠ "_id") :
    ∀ d d', applyUpdate d spec = .ok d' → getField d' "_id" = getField d "_id" := by
  induction spec with
  | nil =>
      intro d d' h
      simp [applyUpdate] at h
      subst h
      rfl
  | cons kv rest ih =>
      obtain ⟨k, v⟩ := kv
      have hk : k ≠ "_id" := hspec (k, v) (List.mem_cons_self _ _)
      have hrest : ∀ kv ∈ rest, kv.1 ≠ "_id" := fun kv hkv =>
        hspec kv (List.mem_cons_of_mem _ hkv)
      intro d d' h
      cases v with
      | objIncVal w =>
          simp only [applyUpdate] at h
          split at h
          · rw [ih hrest _ _ h, getField_setField_ne _ _ _ _ hk]
          · simp at h
      | objOther ks => simp [applyUpdate] at h
      | str s =>
          simp only [applyUpdate] at h
          rw [ih hrest _ _ h, getField_setField_ne _ _ _ _ hk]
      | num n =>
          simp only [applyUpdate] at h
          rw [ih hrest _ _ h, getField_setField_ne _ _ _ _ hk]
      | bool bv =>
          simp only [applyUpdate] at h
          rw [ih hrest _ _ h, getField_setField_ne _ _ _ _ hk]
      | null =>
          simp only [applyUpdate] at h
          rw [ih hrest _ _ h, getField_setField_ne _ _ _ _ hk]

theorem updateLoop_id (c : Option Criteria) (spec : UpdateSpec) (multi : Bool)
    (hspec : ∀ kv ∈ spec, kv.1 ≠ "_id") :
    ∀ docs docs' n ms, updateLoop c spec multi docs = .ok (docs', n, ms) →
      docs'.map (fun d => getField d "_id") = docs.map fun d => getField d "_id" := by
  intro docs
  induction docs with
  | nil =>
      intro docs' n ms h
      simp [updateLoop] at h
      obtain ⟨h1, -, -⟩ := h
      subst h1
      rfl
  | cons d ds ih =>
      intro docs' n ms h
      simp only [updateLoop] at h
      by_cases hm : matchesOpt d c = true
      · rw [if_pos hm] at h
        cases ha : applyUpdate d spec with
        | error e => rw [ha] at h; simp at h
        | ok d1 =>
            have hd1 : getField d1 "_id" = getField d "_id" :=
              applyUpdate_id spec hspec d d1 ha
            cases multi with
            | false =>
                rw [ha] at h
                simp at h
                obtain ⟨h1, -, -⟩ := h
                subst h1
                simp [hd1]
            | true =>
                rw [ha] at h
                cases hr : updateLoop c spec true ds with
                | error e => rw [hr] at h; simp at h
                | ok t =>
                    obtain ⟨ds', n0, ms0⟩ := t
                    rw [hr] at h
                    simp at h
                    obtain ⟨h1, -, -⟩ := h
                    subst h1
                    simp [hd1, ih _ _ _ hr]
      · rw [if_neg hm] at h
        cases hr : updateLoop c spec multi ds with
        | error e => rw [hr] at h; simp at h
        | ok t =>
            obtain ⟨ds', n0, ms0⟩ := t
            rw [hr] at h
            simp at h
            obtain ⟨h1, -, -⟩ := h
            subst h1
            simp [ih _ _ _ hr]

theorem updateLoop_no_match (c : Criteria) (spec : UpdateSpec) (multi : Bool) :
    ∀ docs, (∀ d ∈ docs, matchCriteria d c = false) →
      updateLoop (some c) spec multi docs = .ok (docs, 0, []) := by
  intro docs
  induction docs with
  | nil => intro _; rfl
  | cons d ds ih =>
      intro h
      have hd : matchCriteria d c = false := h d (List.mem_cons_self _ _)
      have hds : ∀ x ∈ ds, matchCriteria x c = false := fun x hx =>
        h x (List.mem_cons_of_mem _ hx)
      simp [updateLoop, matchesOpt, hd, ih hds]

theorem updateLoop_ok_nil (c : Option Criteria) (spec : UpdateSpec) (multi : Bool)
    (docs docs' : List Doc) (n : Nat)
    (hall : ∀ d ∈ docs, matchesOpt d c = true)
    (h : updateLoop c spec multi docs = .ok (docs', n, [])) : docs = [] := by
  cases docs with
  | nil => rfl
  | cons d ds =>
      exfalso
      have hd := hall d (List.mem_cons_self _ _)
      simp only [updateLoop, if_pos hd] at h
      cases ha : applyUpdate d spec with
      | error e => rw [ha] at h; simp at h
      | ok d1 =>
          rw [ha] at h
          cases multi with
          | false => simp at h
          | true =>
              cases hr : updateLoop c spec true ds with
              | error e => rw [hr] at h; simp at h
              | ok t =>
                  obtain ⟨ds', n0, ms0⟩ := t
                  rw [hr] at h
                  simp at h

theorem applyUpdate_inc_cases (d : Doc) (k : String) (w : Value) (rest : UpdateSpec) :
    applyUpdate d ((k, Value.objIncVal w) :: rest) = .error (JsErr.typeMismatch k) ∨
    ∃ n m, getField d k = some (Value.num n) ∧ w = Value.num m ∧
      applyUpdate d ((k, Value.objIncVal w) :: rest)
        = applyUpdate (setField d k (Value.num (n + m))) rest := by
  simp only [applyUpdate]
  split
  · next n m hg => exact Or.inr ⟨n, m, hg, rfl, rfl⟩
  · exact Or.inl rfl

theorem applyUpdate_error_shape :
    ∀ (spec : UpdateSpec) (d : Doc) (e : JsErr), applyUpdate d spec = .error e →
      (∃ k v, (k, Value.objIncVal v) ∈ spec ∧ e = JsErr.typeMismatch k) ∨
      (∃ k ks, (k, Value.objOther ks) ∈ spec ∧ e = JsErr.unsupportedOperator ks) := by
  intro spec
  induction spec with
  | nil => intro d e h; simp [applyUpdate] at h
  | cons kv rest ih =>
      obtain ⟨k, v⟩ := kv
      intro d e h
      cases v with
      | objIncVal w =>
          rcases applyUpdate_inc_cases d k w rest with hcase | ⟨n, m, -, -, hstep⟩
          · rw [hcase] at h
            simp only [Except.error.injEq] at h
            exact Or.inl ⟨k, w, List.mem_cons_self _ _, h.symm⟩
          · rw [hstep] at h
            rcases ih _ _ h with ⟨k', v', hmem, he⟩ | ⟨k', ks', hmem, he⟩
            · exact Or.inl ⟨k', v', List.mem_cons_of_mem _ hmem, he⟩
            · exact Or.inr ⟨k', ks', List.mem_cons_of_mem _ hmem, he⟩
      | objOther ks =>
          simp only [applyUpdate, Except.error.injEq] at h
          exact Or.inr ⟨k, ks, List.mem_cons_self _ _, h.symm⟩
      | str s =>
          simp only [applyUpdate] at h
          rcases ih _ _ h with ⟨k', v', hmem, he⟩ | ⟨k', ks', hmem, he⟩
          · exact Or.inl ⟨k', v', List.mem_cons_of_mem _ hmem, he⟩
          · exact Or.inr ⟨k', ks', List.mem_cons_of_mem _ hmem, he⟩
      | num n =>
          simp only [applyUpdate] at h
          rcases ih _ _ h with ⟨k', v', hmem, he⟩ | ⟨k', ks', hmem, he⟩
          · exact Or.inl ⟨k', v', List.mem_cons_of_mem _ hmem, he⟩
          · exact Or.inr ⟨k', ks', List.mem_cons_of_mem _ hmem, he⟩
      | bool bv =>
          simp only [applyUpdate] at h
          rcases ih _ _ h with ⟨k', v', hmem, he⟩ | ⟨k', ks', hmem, he⟩
          · exact Or.inl ⟨k', v', List.mem_cons_of_mem _ hmem, he⟩
          · exact Or.inr ⟨k', ks', List.mem_cons_of_mem _ hmem, he⟩
      | null =>
          simp only [applyUpdate] at h
          rcases ih _ _ h with ⟨k', v', hmem, he⟩ | ⟨k', ks', hmem, he⟩
          · exact Or.inl ⟨k', v', List.mem_cons_of_mem _ hmem, he⟩
          · exact Or.inr ⟨k', ks', List.mem_cons_of_mem _ hmem, he⟩

theorem updateLoop_error_shape (c : Option Criteria) (spec : UpdateSpec) (multi : Bool) :
    ∀ docs e, updateLoop c spec multi docs = .error e →
      (∃ k v, (k, Value.objIncVal v) ∈ spec ∧ e = JsErr.typeMismatch k) ∨
      (∃ k ks, (k, Value.objOther ks) ∈ spec ∧ e = JsErr.unsupportedOperator ks) := by
  intro docs
  induction docs with
  | nil => intro e h; simp [updateLoop] at h
  | cons d ds ih =>
      intro e h
      simp only [updateLoop] at h
      by_cases hm : matchesOpt d c = true
      · rw [if_pos hm] at h
        cases ha : applyUpdate d spec with
        | error e' =>
            rw [ha] at h
            simp at h
            subst h
            exact applyUpdate_error_shape spec d _ ha
        | ok d1 =>
            rw [ha] at h
            cases multi with
            | false => simp at h
            | true =>
                cases hr : updateLoop c spec true ds with
                | error e' =>
                    rw [hr] at h
                    simp at h
                    subst h
                    exact ih _ hr
                | ok t =>
                    obtain ⟨ds', n0, ms0⟩ := t
                    rw [hr] at h
                    simp at h
      · rw [if_neg hm] at h
        cases hr : updateLoop c spec multi ds with
        | error e' =>
            rw [hr] at h
            simp at h
            subst h
            exact ih _ hr
        | ok t =>
            obtain ⟨ds', n0, ms0⟩ := t
            rw [hr] at h
            simp at h

theorem updateLoop_error_exists (c : Criteria) (spec : UpdateSpec) (multi : Bool) :
    ∀ docs, (∃ d ∈ processedMatches c multi docs, isErrE (applyUpdate d spec) = true) →
      ∃ e, updateLoop (some c) spec multi docs = .error e := by
  intro docs
  induction docs with
  | nil =>
      rintro ⟨d, hd, -⟩
      simp [processedMatches] at hd
  | cons d0 ds ih =>
      rintro ⟨d, hd, herr⟩
      by_cases hm : matchCriteria d0 c = true
      · cases ha : applyUpdate d0 spec with
        | error e =>
            refine ⟨e, ?_⟩
            simp [updateLoop, matchesOpt, hm, ha]
        | ok d1 =>
            cases multi with
            | false =>
                exfalso
                have hd0 : d = d0 := by
                  simp [processedMatches, hm] at hd
                  exact hd
                subst hd0
                rw [ha] at herr
                simp [isErrE] at herr
            | true =>
                have hmem : d ∈ processedMatches c true ds := by
                  simp only [processedMatches, if_pos rfl] at hd ⊢
                  rcases List.mem_filter.mp hd with ⟨hmem0, hmc⟩
                  rcases List.mem_cons.mp hmem0 with h0 | h0
                  · exfalso
                    subst h0
                    rw [ha] at herr
                    simp [isErrE] at herr
                  · exact List.mem_filter.mpr ⟨h0, hmc⟩
                obtain ⟨e, he⟩ := ih ⟨d, hmem, herr⟩
                refine ⟨e, ?_⟩
                simp [updateLoop, matchesOpt, hm, ha, he]
      · have hfeq : (d0 :: ds).filter (fun x => matchCriteria x c)
            = ds.filter fun x => matchCriteria x c := by
          simp [List.filter_cons, hm]
        have hmem : d ∈ processedMatches c multi ds := by
          cases multi with
          | false =>
              simp only [processedMatches, Bool.false_eq_true, if_false, hfeq] at hd ⊢
              exact hd
          | true =>
              simp only [processedMatches, if_pos rfl, hfeq] at hd ⊢
              exact hd
        obtain ⟨e, he⟩ := ih ⟨d, hmem, herr⟩
        refine ⟨e, ?_⟩
        simp [updateLoop, matchesOpt, hm, he]

/-- C3: for an update whose matched documents (all matches, or only the
first when multi is false, since the loop breaks there) contain a field
entry that is an operator object failing -- an `$inc` over non-numeric
operands, or an operator object without `$inc` -- the operation rejects
with the corresponding type-mismatch or unsupported-operator error, the
write step is never reached, and the stored collection is unchanged. -/
theorem update_operator_error_aborts (gen : Nat) (docs : List Doc) (lh : Bool)
    (evs : List Ev) (c : Criteria) (spec : UpdateSpec) (opts : UpdateOptions)
    (h : ∃ d ∈ processedMatches c opts.multi docs, isErrE (applyUpdate d spec) = true) :
    ∃ e, (Collection.update noFaults gen ⟨docs, lh, evs⟩ (some c) (some spec) opts).settled
        = some (Except.error e) ∧
      (Collection.update noFaults gen ⟨docs, lh, evs⟩ (some c) (some spec) opts).backend.docs
        = docs ∧
      ((∃ k v, (k, Value.objIncVal v) ∈ spec ∧ e = JsErr.typeMismatch k) ∨
       (∃ k ks, (k, Value.objOther ks) ∈ spec ∧ e = JsErr.unsupportedOperator ks)) := by
  obtain ⟨e, he⟩ := updateLoop_error_exists c spec opts.multi docs h
  refine ⟨e, ?_, ?_, updateLoop_error_shape _ _ _ _ _ he⟩
  · simp [Collection.update, Backend.lockOp, Backend.getOp, noFaults, settleR, he]
  · simp [Collection.update, Backend.lockOp, Backend.getOp, noFaults, he]

/-- Witness for the C3 theorem at a concrete input. -/
theorem update_operator_error_aborts_witness :
    (∃ d ∈ processedMatches [("a", Value.num 1)] ({} : UpdateOptions).multi
        [[("a", Value.num 1)]], isErrE (applyUpdate d [("b", Value.objOther "$x")]) = true) ∧
    ∃ e, (Collection.update noFaults 0 ⟨[[("a", Value.num 1)]], false, []⟩
        (some [("a", Value.num 1)]) (some [("b", Value.objOther "$x")]) {}).settled
        = some (Except.error e) ∧
      (Collection.update noFaults 0 ⟨[[("a", Value.num 1)]], false, []⟩
        (some [("a", Value.num 1)]) (some [("b", Value.objOther "$x")]) {}).backend.docs
        = [[("a", Value.num 1)]] ∧
      ((∃ k v, (k, Value.objIncVal v) ∈ [("b", Value.objOther "$x")] ∧
          e = JsErr.typeMismatch k) ∨
       (∃ k ks, (k, Value.objOther ks) ∈ [("b", Value.objOther "$x")] ∧
          e = JsErr.unsupportedOperator ks)) :=
  ⟨by decide, update_operator_error_aborts 0 [[("a", Value.num 1)]] false []
      [("a", Value.num 1)] [("b", Value.objOther "$x")] {} (by decide)⟩

/-- C6: an update with a non-empty criteria matching no stored document
resolves through the no-match branch: with upsert set, the update
specification itself is inserted as a new document (exactly one document,
receiving a fresh id) and the result reports one upsert; with upsert
unset, the operation resolves with an all-zero result and the stored
collection is unchanged.  Stated for the default result shape
(options.retObj false). -/
theorem update_upsert_no_match (gen : Nat) (docs : List Doc) (lh : Bool) (evs : List Ev)
    (c : Criteria) (spec : UpdateSpec) (opts : UpdateOptions)
    (hc : c ≠ []) (hnm : ∀ d ∈ docs, matchCriteria d c = false)
    (hret : opts.retObj = false) :
    (opts.upsert = true →
        (Collection.update noFaults gen ⟨docs, lh, evs⟩ (some c) (some spec) opts).settled
          = some (Except.ok (UpdateOut.counts ⟨0, 0, 1⟩)) ∧
        (Collection.update noFaults gen ⟨docs, lh, evs⟩ (some c) (some spec) opts).backend.docs
          = docs ++ [setField spec "_id" (freshId gen)]) ∧
    (opts.upsert = false →
        (Collection.update noFaults gen ⟨docs, lh, evs⟩ (some c) (some spec) opts).settled
          = some (Except.ok (UpdateOut.counts ⟨0, 0, 0⟩)) ∧
        (Collection.update noFaults gen ⟨docs, lh, evs⟩ (some c) (some spec) opts).backend.docs
          = docs) := by
  have hloop := updateLoop_no_match c spec opts.multi docs hnm
  constructor
  · intro hup
    constructor
    · simp [Collection.update, Collection.insert, Backend.lockOp, Backend.getOp,
        Backend.setOp, Backend.unlockOp, noFaults, settleR, hloop, hc, hup, hret]
    · simp [Collection.update, Collection.insert, Backend.lockOp, Backend.getOp,
        Backend.setOp, Backend.unlockOp, noFaults, settleR, hloop, hc, hup, hret]
  · intro hup
    constructor
    · simp [Collection.update, Backend.lockOp, Backend.getOp,
        Backend.setOp, Backend.unlockOp, noFaults, settleR, hloop, hc, hup, hret]
    · simp [Collection.update, Backend.lockOp, Backend.getOp,
        Backend.setOp, Backend.unlockOp, noFaults, settleR, hloop, hc, hup, hret]

/-- Witness for the C6 theorem at a concrete input. -/
theorem update_upsert_no_match_witness :
    (([("k", Value.str "v")] : Criteria) ≠ [] ∧
      (∀ d ∈ [[("q", Value.num 9)]], matchCriteria d [("k", Value.str "v")] = false) ∧
      ({ upsert := true } : UpdateOptions).retObj = false) ∧
    (({ upsert := true } : UpdateOptions).upsert = true →
        (Collection.update noFaults 3 ⟨[[("q", Value.num 9)]], false, []⟩
            (some [("k", Value.str "v")]) (some [("x", Value.num 2)])
            { upsert := true }).settled
          = some (Except.ok (UpdateOut.counts ⟨0, 0, 1⟩)) ∧
        (Collection.update noFaults 3 ⟨[[("q", Value.num 9)]], false, []⟩
            (some [("k", Value.str "v")]) (some [("x", Value.num 2)])
            { upsert := true }).backend.docs
          = [[("q", Value.num 9)]] ++ [setField [("x", Value.num 2)] "_id" (freshId 3)]) ∧
    (({ upsert := true } : UpdateOptions).upsert = false →
        (Collection.update noFaults 3 ⟨[[("q", Value.num 9)]], false, []⟩
            (some [("k", Value.str "v")]) (some [("x", Value.num 2)])
            { upsert := true }).settled
          = some (Except.ok (UpdateOut.counts ⟨0, 0, 0⟩)) ∧
        (Collection.update noFaults 3 ⟨[[("q", Value.num 9)]], false, []⟩
            (some [("k", Value.str "v")]) (some [("x", Value.num 2)])
            { upsert := true }).backend.docs
          = [[("q", Value.num 9)]]) :=
  ⟨⟨by decide, by decide, by decide⟩,
    update_upsert_no_match 3 [[("q", Value.num 9)]] false [] [("k", Value.str "v")]
      [("x", Value.num 2)] { upsert := true } (by decide) (by decide) (by decide)⟩

theorem update_docs_id (gen : Nat) (docs : List Doc) (lh : Bool) (evs : List Ev)
    (cr : Option Criteria) (spec : UpdateSpec) (o : UpdateOptions)
    (hspec : ∀ kv ∈ spec, kv.1 ≠ "_id") :
    (((Collection.update noFaults gen ⟨docs, lh, evs⟩ cr (some spec) o).backend.docs.map
        (fun d => getField d "_id")).take docs.length)
      = docs.map fun d => getField d "_id" := by
  cases hloop : updateLoop cr spec o.multi docs with
  | error e =>
      simp only [Collection.update, Backend.lockOp, Backend.getOp, noFaults,
        Option.getD_some, hloop]
      rw [← List.length_map docs (fun d => getField d "_id"), List.take_length]
  | ok t =>
      obtain ⟨docs', n, ms⟩ := t
      cases ms with
      | cons m ms' =>
          have hmap := updateLoop_id cr spec o.multi hspec docs docs' n (m :: ms') hloop
          simp only [Collection.update, Backend.lockOp, Backend.getOp, Backend.setOp,
            Backend.unlockOp, noFaults, Option.getD_some, hloop]
          rw [hmap, ← List.length_map docs (fun d => getField d "_id"), List.take_length]
      | nil =>
          by_cases hcr : cr = none ∨ cr = some []
          · have hall : ∀ d ∈ docs, matchesOpt d cr = true := by
              rcases hcr with h | h <;> subst h <;> intro d hd
              · simp [matchesOpt]
              · simp [matchesOpt, matchCriteria]
            have hdocs : docs = [] := updateLoop_ok_nil cr spec o.multi docs docs' n hall hloop
            subst hdocs
            simp
          · push_neg at hcr
            by_cases hup : o.upsert = true
            · simp only [Collection.update, Collection.insert, Backend.lockOp, Backend.getOp,
                Backend.setOp, Backend.unlockOp, noFaults, Option.getD_some, settleR, hloop,
                hcr.1, hcr.2, hup, if_true]
              simp only [or_self, if_false, hcr.1, hcr.2]
              rw [List.map_append, ← List.length_map docs (fun d => getField d "_id")]
              exact List.take_left _ _
            · have hup' : o.upsert = false := by
                cases h : o.upsert
                · rfl
                · exact absurd h hup
              simp only [Collection.update, Backend.lockOp, Backend.getOp, Backend.unlockOp,
                noFaults, Option.getD_some, hloop, hup', Bool.false_eq_true, if_false]
              simp only [hcr.1, hcr.2, or_self, if_false]
              rw [← List.length_map docs (fun d => getField d "_id"), List.take_length]

/-- C9 (amended): provided the update specification itself contains no
`_id` entry, every update-family operation (update, updateOne, updateMany,
findAndModify) leaves the `_id` of every previously stored document
unchanged, position by position -- no code path reassigns an identifier on
its own; only an explicit `_id` entry in the specification does. -/
theorem update_family_preserves_id (op : UpdFam) (gen : Nat) (docs : List Doc) (lh : Bool)
    (evs : List Ev) (criteria : Option Criteria) (spec : UpdateSpec)
    (hspec : ∀ kv ∈ spec, kv.1 ≠ "_id") :
    (((runUpdFam gen ⟨docs, lh, evs⟩ criteria spec op).backend.docs.map
        (fun d => getField d "_id")).take docs.length)
      = docs.map fun d => getField d "_id" := by
  cases op with
  | upd o => exact update_docs_id gen docs lh evs criteria spec o hspec
  | updOne o =>
      exact update_docs_id gen docs lh evs criteria spec { o with multi := false } hspec
  | updMany o =>
      exact update_docs_id gen docs lh evs criteria spec { o with multi := true } hspec
  | findMod o =>
      exact update_docs_id gen docs lh evs
        (match criteria with | some [] => none | x => x) spec o hspec

/-- Witness for the C9 amended theorem at a concrete input. -/
theorem update_family_preserves_id_witness :
    (∀ kv ∈ ([("a", Value.num 2)] : UpdateSpec), kv.1 ≠ "_id") ∧
    (((runUpdFam 9 ⟨[[("_id", Value.num 0), ("a", Value.num 1)]], false, []⟩
        (some [("a", Value.num 1)]) [("a", Value.num 2)] (UpdFam.upd {})).backend.docs.map
        (fun d => getField d "_id")).take
          ([[("_id", Value.num 0), ("a", Value.num 1)]] : List Doc).length)
      = [[("_id", Value.num 0), ("a", Value.num 1)]].map fun d => getField d "_id" :=
  ⟨by decide,
    update_family_preserves_id (UpdFam.upd {}) 9
      [[("_id", Value.num 0), ("a", Value.num 1)]] false []
      (some [("a", Value.num 1)]) [("a", Value.num 2)] (by decide)⟩

/-- Every stored document of the fault-free insert runs carries an id
below the current generator counter, and the ids are pairwise distinct. -/
def idInv (g : Nat) (docs : List Doc) : Prop :=
  (∀ d ∈ docs, ∃ i, i < g ∧ getField d "_id" = some (freshId i)) ∧
  (docs.map fun d => getField d "_id").Nodup

theorem freshId_inj {i j : Nat} (h : freshId i = freshId j) : i = j := by
  simpa [freshId] using h

theorem assignIds_map_id (ds : List Doc) : ∀ g,
    (Collection.assignIds g ds).map (fun d => getField d "_id")
      = (List.range' g ds.length).map fun i => some (freshId i) := by
  induction ds with
  | nil => intro g; rfl
  | cons d rest ih =>
      intro g
      simp [Collection.assignIds, List.range'_succ, getField_setField_self, ih (g + 1)]

theorem idInv_append (g : Nat) (docs ds : List Doc) (h : idInv g docs) :
    idInv (g + ds.length) (docs ++ Collection.assignIds g ds) := by
  obtain ⟨hmem, hnd⟩ := h
  constructor
  · intro d hd
    rcases List.mem_append.mp hd with hd | hd
    · obtain ⟨i, hi, he⟩ := hmem d hd
      exact ⟨i, Nat.lt_of_lt_of_le hi (Nat.le_add_right _ _), he⟩
    · have hidm : getField d "_id" ∈ (Collection.assignIds g ds).map fun x => getField x "_id" :=
        List.mem_map_of_mem _ hd
      rw [assignIds_map_id] at hidm
      rcases List.mem_map.mp hidm with ⟨j, hj, he⟩
      rcases List.mem_range'_1.mp hj with ⟨-, hlt⟩
      exact ⟨j, hlt, he.symm⟩
  · rw [List.map_append, List.nodup_append]
    refine ⟨hnd, ?_, ?_⟩
    · rw [assignIds_map_id]
      exact (List.nodup_range' g ds.length).map fun i j hij =>
        freshId_inj (Option.some.inj hij)
    · intro x hx hx'
      rcases List.mem_map.mp hx with ⟨d, hd, he⟩
      obtain ⟨i, hi, hie⟩ := hmem d hd
      rw [assignIds_map_id] at hx'
      rcases List.mem_map.mp hx' with ⟨j, hj, hje⟩
      rcases List.mem_range'_1.mp hj with ⟨hle, -⟩
      have : i = j := freshId_inj (Option.some.inj (by rw [← hie, he, ← hje]))
      omega

theorem idInv_insert (g : Nat) (docs : List Doc) (d : Doc) (h : idInv g docs) :
    idInv (g + 1) (docs ++ [setField d "_id" (freshId g)]) := by
  simpa [Collection.assignIds] using idInv_append g docs [d] h

theorem runInsOp_inv (st : Nat × Backend) (op : InsOp) (h : idInv st.1 st.2.docs) :
    idInv (runInsOp st op).1 (runInsOp st op).2.docs := by
  obtain ⟨g, b⟩ := st
  obtain ⟨docs, lhh, evs⟩ := b
  cases op with
  | one d =>
      have hd : (runInsOp (g, ⟨docs, lhh, evs⟩) (InsOp.one d)).2.docs
          = docs ++ [setField d "_id" (freshId g)] := by
        simp [runInsOp, Collection.insert, Backend.lockOp, Backend.getOp, Backend.setOp,
          Backend.unlockOp, noFaults]
      have hg : (runInsOp (g, ⟨docs, lhh, evs⟩) (InsOp.one d)).1 = g + 1 := by
        simp [runInsOp, Collection.insert, Backend.lockOp, Backend.getOp, Backend.setOp,
          Backend.unlockOp, noFaults]
      rw [hd, hg]
      exact idInv_insert g docs d h
  | many ds =>
      have hd : (runInsOp (g, ⟨docs, lhh, evs⟩) (InsOp.many ds)).2.docs
          = docs ++ Collection.assignIds g ds := by
        cases ds <;>
          simp [runInsOp, Collection.insertMany, Backend.lockOp, Backend.getOp,
            Backend.setOp, Backend.unlockOp, noFaults, Collection.assignIds]
      have hg : (runInsOp (g, ⟨docs, lhh, evs⟩) (InsOp.many ds)).1 = g + ds.length := by
        cases ds <;>
          simp [runInsOp, Collection.insertMany, Backend.lockOp, Backend.getOp,
            Backend.setOp, Backend.unlockOp, noFaults]
      rw [hd, hg]
      exact idInv_append g docs ds h

theorem runInsOps_inv (ops : List InsOp) : ∀ st, idInv st.1 st.2.docs →
    idInv (runInsOps st ops).1 (runInsOps st ops).2.docs := by
  induction ops with
  | nil => intro st h; exact h
  | cons op rest ih =>
      intro st h
      exact ih _ (runInsOp_inv st op h)

/-- C4 (amended): starting from an empty collection, after any sequence of
fault-free single-document inserts and insertMany calls every stored
document has an `_id` and no two stored documents share one (with the ID
generator modelled as collision-free).  The array form of insert is
excluded: there the generated id is assigned to the array object itself
and lost in the flatten, so the appended elements carry no `_id` (see the
counterexample). -/
theorem insert_family_unique_ids (ops : List InsOp) :
    (∀ d ∈ (runInsOps (0, ⟨[], false, []⟩) ops).2.docs, (getField d "_id").isSome = true) ∧
    ((runInsOps (0, ⟨[], false, []⟩) ops).2.docs.map fun d => getField d "_id").Nodup := by
  have h := runInsOps_inv ops (0, ⟨[], false, []⟩)
    ⟨fun d hd => absurd hd (List.not_mem_nil d), List.nodup_nil⟩
  refine ⟨fun d hd => ?_, h.2⟩
  obtain ⟨i, -, hi⟩ := h.1 d hd
  simp [hi]

theorem uniqAux_mem (x : Option Value) : ∀ (l seen : List (Option Value)),
    x ∈ Collection.uniqAux seen l ↔ (x ∈ l ∧ x ∉ seen) := by
  intro l
  induction l with
  | nil => intro seen; simp [Collection.uniqAux]
  | cons y ys ih =>
      intro seen
      by_cases hy : y ∈ seen
      · rw [Collection.uniqAux, if_pos hy, ih seen]
        constructor
        · rintro ⟨hmem, hns⟩
          exact ⟨List.mem_cons_of_mem _ hmem, hns⟩
        · rintro ⟨hmem, hns⟩
          rcases List.mem_cons.mp hmem with rfl | hmem
          · exact absurd hy hns
          · exact ⟨hmem, hns⟩
      · rw [Collection.uniqAux, if_neg hy]
        constructor
        · intro hx
          rcases List.mem_cons.mp hx with rfl | hx
          · exact ⟨List.mem_cons_self _ _, hy⟩
          · rcases (ih (y :: seen)).mp hx with ⟨hmem, hns⟩
            exact ⟨List.mem_cons_of_mem _ hmem,
              fun hseen => hns (List.mem_cons_of_mem _ hseen)⟩
        · rintro ⟨hmem, hns⟩
          rcases List.mem_cons.mp hmem with rfl | hmem
          · exact List.mem_cons_self _ _
          · by_cases hxy : x = y
            · subst hxy
              exact List.mem_cons_self _ _
            · exact List.mem_cons_of_mem _ ((ih (y :: seen)).mpr ⟨hmem,
                fun hc => (List.mem_cons.mp hc).elim hxy hns⟩)

theorem uniqAux_nodup : ∀ (l seen : List (Option Value)),
    (Collection.uniqAux seen l).Nodup := by
  intro l
  induction l with
  | nil => intro seen; simp [Collection.uniqAux]
  | cons y ys ih =>
      intro seen
      by_cases hy : y ∈ seen
      · rw [Collection.uniqAux, if_pos hy]
        exact ih seen
      · rw [Collection.uniqAux, if_neg hy]
        refine List.nodup_cons.mpr ⟨?_, ih (y :: seen)⟩
        intro hc
        exact ((uniqAux_mem y ys (y :: seen)).mp hc).2 (List.mem_cons_self _ _)

/-- C8 (amended): for a non-empty field name, distinct resolves with a
duplicate-free list holding exactly the truthy values observed for that
field across the documents: null and absent values are excluded, as the
claim says, but so is every other falsy value (0, false, the empty
string), because the pipeline ends in compact. -/
theorem distinct_truthy_characterization (docs : List Doc) (lh : Bool) (evs : List Ev)
    (field : String) (hf : field ≠ "") :
    ∃ out : List Value,
      (Collection.distinct noFaults ⟨docs, lh, evs⟩ field).1 = some (Except.ok out) ∧
      out.Nodup ∧
      ∀ v : Value, v ∈ out ↔ (truthy v = true ∧ ∃ d ∈ docs, getField d field = some v) := by
  refine ⟨((Collection.uniqAux [] (docs.map fun d => getField d field)).filter
      truthyOpt).filterMap (fun x => x), ?_, ?_, ?_⟩
  · simp [Collection.distinct, Backend.getOp, noFaults, settleR, hf]
  · refine List.Nodup.filterMap ?_ ((uniqAux_nodup _ _).filter _)
    intro a a' b hb hb'
    cases a <;> cases a' <;> simp_all
  · intro v
    rw [List.mem_filterMap]
    constructor
    · rintro ⟨a, ha, hav⟩
      have hav' : a = some v := hav
      subst hav'
      rcases List.mem_filter.mp ha with ⟨hmem, htr⟩
      rcases (uniqAux_mem _ _ _).mp hmem with ⟨hmem2, -⟩
      rcases List.mem_map.mp hmem2 with ⟨d, hd, hgd⟩
      exact ⟨by simpa [truthyOpt] using htr, d, hd, hgd⟩
    · rintro ⟨htr, d, hd, hgd⟩
      refine ⟨some v, ?_, rfl⟩
      refine List.mem_filter.mpr ⟨?_, by simpa [truthyOpt] using htr⟩
      refine (uniqAux_mem _ _ _).mpr ⟨?_, by simp⟩
      exact List.mem_map.mpr ⟨d, hd, hgd⟩

/-- Witness for the C8 amended theorem at a concrete input. -/
theorem distinct_truthy_characterization_witness :
    ("tag" ≠ "") ∧
    ∃ out : List Value,
      (Collection.distinct noFaults
          ⟨[[("tag", Value.num 0)], [("tag", Value.str "a")]], false, []⟩ "tag").1
        = some (Except.ok out) ∧
      out.Nodup ∧
      ∀ v : Value, v ∈ out ↔ (truthy v = true ∧
        ∃ d ∈ [[("tag", Value.num 0)], [("tag", Value.str "a")]],
          getField d "tag" = some v) :=
  ⟨by decide,
    distinct_truthy_characterization [[("tag", Value.num 0)], [("tag", Value.str "a")]]
      false [] "tag" (by decide)⟩

/-- C10 (amended): the startup read failure is fatal, as the claim says
(the component does not initialize).  But a lock or write failure on a
flush tick is not merely reported: the callback throws it exactly as the
startup path does (releasing the lock first in the write case, without
updating the file), so the scheduler halts and no later tick runs or
retries. -/
theorem mem_sched_tick_failure_halts (e : JsErr) (f : TickFaults) (s : MemSched)
    (hs : s.halted = false) (hf : f.lockErr ≠ none ∨ f.writeErr ≠ none) :
    memoryInit (Except.error e) = none ∧
    (memTick f s).halted = true ∧
    (memTick f s).fileContent = s.fileContent ∧
    ∀ fs : List TickFaults, memRun (memTick f s) fs = memTick f s := by
  have hhalt : (memTick f s).halted = true ∧ (memTick f s).fileContent = s.fileContent := by
    rcases hl : f.lockErr with - | e'
    · rcases hw : f.writeErr with - | e''
      · rcases hf with hf | hf
        · exact absurd hl hf
        · exact absurd hw hf
      · constructor <;> simp [memTick, hs, hl, hw]
    · constructor <;> simp [memTick, hs, hl]
  have hfix : ∀ (fs : List TickFaults) (t : MemSched), t.halted = true → memRun t fs = t := by
    intro fs
    induction fs with
    | nil => intro t ht; rfl
    | cons f' rest ih =>
        intro t ht
        have h1 : memTick f' t = t := by simp [memTick, ht]
        show memRun (memTick f' t) rest = t
        rw [h1]
        exact ih t ht
  exact ⟨rfl, hhalt.1, hhalt.2, fun fs => hfix fs _ hhalt.1⟩

/-- Witness for the C10 amended theorem at a concrete input. -/
theorem mem_sched_tick_failure_halts_witness :
    ((⟨[[]], some [[]], false⟩ : MemSched).halted = false ∧
      (({ writeErr := some (JsErr.ioErr "boom") } : TickFaults).lockErr ≠ none ∨
        ({ writeErr := some (JsErr.ioErr "boom") } : TickFaults).writeErr ≠ none)) ∧
    memoryInit (Except.error (JsErr.ioErr "gone")) = none ∧
    (memTick { writeErr := some (JsErr.ioErr "boom") } ⟨[[]], some [[]], false⟩).halted = true ∧
    (memTick { writeErr := some (JsErr.ioErr "boom") } ⟨[[]], some [[]], false⟩).fileContent
      = (⟨[[]], some [[]], false⟩ : MemSched).fileContent ∧
    ∀ fs : List TickFaults,
      memRun (memTick { writeErr := some (JsErr.ioErr "boom") } ⟨[[]], some [[]], false⟩) fs
        = memTick { writeErr := some (JsErr.ioErr "boom") } ⟨[[]], some [[]], false⟩ :=
  ⟨⟨rfl, Or.inr (by decide)⟩,
    mem_sched_tick_failure_halts (JsErr.ioErr "gone")
      { writeErr := some (JsErr.ioErr "boom") } ⟨[[]], some [[]], false⟩ rfl
      (Or.inr (by decide))⟩
